import Mathlib

/-!
Verification of the postgresql-reader-mcp / spreadsheet-reader-mcp servers.

Strings are modelled as `List Char` (`Str`). JavaScript's `String.prototype.trim`,
`toLowerCase`, `startsWith`, regex whole-word search (`\bkw\b`), and
`String.prototype.includes` are embedded as executable functions on `Str`.
All embeddings are ASCII-faithful (the repository's keywords, messages and examples
are ASCII); Unicode-specific lower-casing/whitespace classes are out of scope.
-/

set_option autoImplicit false

abbrev Str := List Char

/-- JavaScript whitespace characters removed by `trim` (ASCII subset:
space, tab, line feed, carriage return, vertical tab, form feed). -/
def jsWhitespace (c : Char) : Bool :=
  c == ' ' || c == '\t' || c == '\n' || c == '\r' || c == Char.ofNat 11 || c == Char.ofNat 12

/-- Embeds `String.prototype.trim`: drop whitespace from both ends. -/
def trimList (s : Str) : Str :=
  ((s.dropWhile jsWhitespace).reverse.dropWhile jsWhitespace).reverse

/-- Embeds `String.prototype.toLowerCase` (ASCII). -/
def toLowerList (s : Str) : Str :=
  s.map Char.toLower

/-- The `normalizedSql` of `isReadOnlyQuery`: `sql.trim().toLowerCase()`. -/
def normalizeSql (sql : Str) : Str :=
  toLowerList (trimList sql)

/-- A regex word character `[A-Za-z0-9_]`, as used by the `\b` anchor. -/
def isWordChar (c : Char) : Bool :=
  c.isAlpha || c.isDigit || c == '_'

/-- The character left of the current position (`none` = string start) is a
word boundary for a keyword starting with a word character. -/
def boundaryOk : Option Char → Bool
  | none => true
  | some c => !isWordChar c

/-- `wordAt kw s`: keyword `kw` is a prefix of `s` and the character of `s`
immediately after it (if any) is not a word character (the trailing `\b`). -/
def wordAt : Str → Str → Bool
  | [], [] => true
  | [], c :: _ => !isWordChar c
  | _ :: _, [] => false
  | k :: ks, c :: cs => k == c && wordAt ks cs

/-- Scan `s` for a whole-word occurrence of `kw`; `prev` is the character
just before the current position. -/
def containsWordFrom (kw : Str) : Option Char → Str → Bool
  | prev, [] => boundaryOk prev && wordAt kw []
  | prev, c :: cs => (boundaryOk prev && wordAt kw (c :: cs)) || containsWordFrom kw (some c) cs

/-- Embeds `new RegExp("\\b" + keyword + "\\b", "i").test(s)` for an
all-letters keyword against an already lower-cased string `s`. -/
def containsWord (kw s : Str) : Bool :=
  containsWordFrom kw none s

/-- The `forbiddenKeywords` array of `isReadOnlyQuery`. -/
def forbiddenKeywords : List Str :=
  ["insert".data, "update".data, "delete".data, "drop".data, "create".data,
   "alter".data, "truncate".data, "grant".data, "revoke".data, "copy".data,
   "execute".data, "call".data]

/-- Embeds `isReadOnlyQuery` (src/postgresql-reader-mcp/dist/index.js:355-383):
normalize, require a permitted leading keyword, then reject on any whole-word
denylist hit; the for-loop with early `return false` is the `List.any`. -/
def isReadOnlyQuery (sql : Str) : Bool :=
  if !(List.isPrefixOf "select".data (normalizeSql sql)) &&
     !(List.isPrefixOf "with".data (normalizeSql sql)) &&
     !(List.isPrefixOf "explain".data (normalizeSql sql)) then
    false
  else if forbiddenKeywords.any (fun kw => containsWord kw (normalizeSql sql)) then
    false
  else
    true

/-- The example SQL string containing single-quoted literal text:
`SELECT 'update me' FROM t` (character 39 is the single quote). -/
def updateLiteralExample : Str :=
  "SELECT ".data ++ (Char.ofNat 39 :: "update me".data) ++ (Char.ofNat 39 :: " FROM t".data)

theorem guard_shape_iff (a : Bool) (l : List Str) (f : Str → Bool) :
    (if a then false else if l.any f then false else true) = true ↔
      (a = false ∧ ∀ kw ∈ l, f kw = false) := by
  cases a
  · cases h : l.any f
    · simp only [Bool.false_eq_true, if_false, true_and]
      constructor
      · intro _ kw hkw
        simpa using List.any_eq_false.mp h kw hkw
      · intro _
        trivial
    · simp only [Bool.false_eq_true, if_false, if_true, true_and]
      constructor
      · intro hc
        cases hc
      · intro hall
        rcases List.any_eq_true.mp h with ⟨kw, hkw, hf⟩
        rw [hall kw hkw] at hf
        cases hf
  · simp

/-- C1: the guard permits a SQL string iff its normalized form starts with
`select`/`with`/`explain` and no denylisted keyword occurs as a whole word;
the five documented examples behave as stated. -/
theorem c1_read_only_guard :
    (∀ sql : Str, isReadOnlyQuery sql = true ↔
      ((List.isPrefixOf "select".data (normalizeSql sql) = true ∨
        List.isPrefixOf "with".data (normalizeSql sql) = true ∨
        List.isPrefixOf "explain".data (normalizeSql sql) = true) ∧
       ∀ kw ∈ forbiddenKeywords, containsWord kw (normalizeSql sql) = false)) ∧
    isReadOnlyQuery "SELECT 1".data = true ∧
    isReadOnlyQuery "  select * from t".data = true ∧
    isReadOnlyQuery "DROP TABLE t".data = false ∧
    isReadOnlyQuery "SELECT * FROM t; DELETE FROM t".data = false ∧
    isReadOnlyQuery updateLiteralExample = false := by
  refine ⟨fun sql => ?_, by decide, by decide, by decide, by decide, by decide⟩
  unfold isReadOnlyQuery
  rw [guard_shape_iff]
  constructor
  · rintro ⟨ha, hall⟩
    refine ⟨?_, hall⟩
    cases h1 : List.isPrefixOf "select".data (normalizeSql sql) <;>
      cases h2 : List.isPrefixOf "with".data (normalizeSql sql) <;>
      cases h3 : List.isPrefixOf "explain".data (normalizeSql sql) <;>
      simp_all
  · rintro ⟨hpre, hall⟩
    refine ⟨?_, hall⟩
    rcases hpre with h | h | h <;> simp [h]

/-- C9: the leading-keyword check is a raw character-prefix test: the string
`withdrawal of funds` is permitted by the guard although none of `select`,
`with`, `explain` occurs in its normalized form as a whole word. -/
theorem c9_prefix_no_word_boundary :
    isReadOnlyQuery "withdrawal of funds".data = true ∧
    containsWord "select".data (normalizeSql "withdrawal of funds".data) = false ∧
    containsWord "with".data (normalizeSql "withdrawal of funds".data) = false ∧
    containsWord "explain".data (normalizeSql "withdrawal of funds".data) = false := by
  decide

/-- Embeds `String.prototype.includes`: contiguous substring occurrence test. -/
def includesSub (needle : Str) : Str → Bool
  | [] => List.isPrefixOf needle []
  | c :: cs => List.isPrefixOf needle (c :: cs) || includesSub needle cs

instance {ε α : Type} [DecidableEq ε] [DecidableEq α] : DecidableEq (Except ε α) := fun a b =>
  match a, b with
  | .ok x, .ok y =>
    if h : x = y then isTrue (by rw [h]) else isFalse (by intro hc; cases hc; exact h rfl)
  | .error x, .error y =>
    if h : x = y then isTrue (by rw [h]) else isFalse (by intro hc; cases hc; exact h rfl)
  | .ok _, .error _ => isFalse (by intro hc; cases hc)
  | .error _, .ok _ => isFalse (by intro hc; cases hc)

/-- The `effectiveLimit` of `handleQuery`: `Math.min(Math.max(1, limit), 1000)`. -/
def effectiveLimit (limit : Int) : Int :=
  min (max 1 limit) 1000

/-- Decimal rendering of the effective limit, as the template literal
interpolation renders the (integral, in-range) number. -/
def renderLimit (limit : Int) : Str :=
  (Nat.repr (effectiveLimit limit).toNat).data

/-- The ` LIMIT k` text appended to a capped query. -/
def limitClause (limit : Int) : Str :=
  " LIMIT ".data ++ renderLimit limit

/-- Embeds the query-string construction of `handleQuery`
(src/postgresql-reader-mcp/dist/index.js:488-493): start from `sql.trim()`
and append ` LIMIT effectiveLimit` unless the lower-cased trimmed text
contains `limit` as a substring. The result is the string sent to the pool. -/
def executedSql (sql : Str) (limit : Int) : Str :=
  if includesSub "limit".data (toLowerList (trimList sql)) then
    trimList sql
  else
    trimList sql ++ limitClause limit

/-- Embeds `handleQuery` up to the database call: reject non-read-only SQL
with the guard, otherwise produce the string that is executed. -/
def handleQuery (sql : Str) (limit : Int) : Except Str Str :=
  if isReadOnlyQuery sql = false then
    Except.error "Only read-only queries (SELECT, WITH, EXPLAIN) are allowed. Modification statements are not permitted.".data
  else
    Except.ok (executedSql sql limit)

/-- Embeds `escapeIdentifier` (src/postgresql-reader-mcp/dist/index.js:385-387):
`identifier.replace(/"/g, Char 34 twice)` scanned character by character. -/
def escapeQuotes : Str → Str
  | [] => []
  | c :: cs => if c == '"' then '"' :: ('"' :: escapeQuotes cs) else c :: escapeQuotes cs

/-- Embeds `escapeIdentifier`: wrap the quote-doubled body in double quotes. -/
def escapeIdentifier (identifier : Str) : Str :=
  '"' :: (escapeQuotes identifier ++ ['"'])

/-- C2 counterexample: `SELECT 1` is accepted by the guard, yet the string the
query operation executes is not the original input (a LIMIT cap is appended). -/
theorem c2_executed_not_original :
    isReadOnlyQuery "SELECT 1".data = true ∧
    handleQuery "SELECT 1".data 100 = Except.ok "SELECT 1 LIMIT 100".data ∧
    executedSql "SELECT 1".data 100 ≠ "SELECT 1".data := by
  decide

/-- C2 (amended): for every guard-accepted SQL string, the executed string is
the trimmed original — never the lower-cased normalization — either unchanged
or with a ` LIMIT k` clause appended. -/
theorem c2_amended_executed_is_trimmed (sql : Str) (limit : Int)
    (h : isReadOnlyQuery sql = true) :
    handleQuery sql limit = Except.ok (executedSql sql limit) ∧
    (executedSql sql limit = trimList sql ∨
     executedSql sql limit = trimList sql ++ limitClause limit) := by
  constructor
  · simp [handleQuery, h]
  · unfold executedSql
    split
    · exact Or.inl rfl
    · exact Or.inr rfl

theorem c2_amended_witness :
    isReadOnlyQuery "SELECT 1".data = true ∧
    (handleQuery "SELECT 1".data 100 = Except.ok (executedSql "SELECT 1".data 100) ∧
     (executedSql "SELECT 1".data 100 = trimList "SELECT 1".data ∨
      executedSql "SELECT 1".data 100 = trimList "SELECT 1".data ++ limitClause 100)) :=
  ⟨by decide, c2_amended_executed_is_trimmed "SELECT 1".data 100 (by decide)⟩

/-- C10: for permitted SQL, the executed string is `trim(s)` with ` LIMIT k`
appended, `k = min(max(1, n), 1000)`, exactly when the lower-cased `trim(s)`
does not contain `limit` as a substring; any occurrence of the substring —
even inside an identifier — suppresses the cap. -/
theorem c10_limit_cap (sql : Str) (n : Int) (_h : isReadOnlyQuery sql = true) :
    (executedSql sql n = trimList sql ++ (" LIMIT ".data ++ (Nat.repr (min (max 1 n) 1000).toNat).data) ↔
      includesSub "limit".data (toLowerList (trimList sql)) = false) ∧
    (includesSub "limit".data (toLowerList (trimList sql)) = true →
      executedSql sql n = trimList sql) := by
  have hclause : limitClause n = " LIMIT ".data ++ (Nat.repr (min (max 1 n) 1000).toNat).data := rfl
  constructor
  · constructor
    · intro heq
      by_contra hc
      have hinc : includesSub "limit".data (toLowerList (trimList sql)) = true := by
        cases hv : includesSub "limit".data (toLowerList (trimList sql))
        · exact absurd hv hc
        · rfl
      rw [executedSql, if_pos hinc] at heq
      have hlen := congrArg List.length heq
      simp [limitClause] at hlen
    · intro hinc
      rw [executedSql, if_neg (by simp [hinc]), hclause]
  · intro hinc
    rw [executedSql, if_pos hinc]

theorem c10_limit_cap_witness :
    isReadOnlyQuery "SELECT 1".data = true ∧
    ((executedSql "SELECT 1".data 100 = trimList "SELECT 1".data ++ (" LIMIT ".data ++ (Nat.repr (min (max 1 (100 : Int)) 1000).toNat).data) ↔
        includesSub "limit".data (toLowerList (trimList "SELECT 1".data)) = false) ∧
     (includesSub "limit".data (toLowerList (trimList "SELECT 1".data)) = true →
        executedSql "SELECT 1".data 100 = trimList "SELECT 1".data)) ∧
    isReadOnlyQuery "select x as limit_date from t".data = true ∧
    executedSql "select x as limit_date from t".data 100 = "select x as limit_date from t".data :=
  ⟨by decide, c10_limit_cap "SELECT 1".data 100 (by decide), by decide, by decide⟩

/-- C6: identifier escaping wraps the input in double quotes and doubles every
embedded double quote, changing nothing else; the documented example holds. -/
theorem c6_escape_identifier :
    (∀ s : Str, escapeIdentifier s =
      ('"' :: (s.flatMap (fun c => if c = '"' then ['"', '"'] else [c]) ++ ['"']))) ∧
    escapeIdentifier "the\"table".data = "\"the\"\"table\"".data := by
  constructor
  · intro s
    unfold escapeIdentifier
    congr 1
    congr 1
    induction s with
    | nil => rfl
    | cons c cs ih =>
      by_cases hc : c = '"'
      · simp [escapeQuotes, hc, ih]
      · simp [escapeQuotes, hc, ih]
  · decide

/-- The full `pg` pool configuration built by `addConnection`, password
included, with the fixed resource-limit constants. -/
structure PoolConfig where
  host : Str
  port : Int
  database : Str
  user : Str
  password : Str
  maxClients : Int
  idleTimeoutMillis : Int
  connectionTimeoutMillis : Int
deriving DecidableEq

/-- The opaque live handle: `new Pool(config)` retains its configuration. -/
structure Pool where
  config : PoolConfig
deriving DecidableEq

/-- The sanitized `config` stored in a registry entry: host, port, database,
user — no password field exists in this record. -/
structure DisplayConfig where
  host : Str
  port : Int
  database : Str
  user : Str
deriving DecidableEq

/-- A value of the `connections` map: the pool plus the display config. -/
structure ConnEntry where
  pool : Pool
  config : DisplayConfig
deriving DecidableEq

/-- The `connections` map, in insertion order (JS `Map` preserves it). -/
abbrev Registry := List (Str × ConnEntry)

/-- `connections.has(name)`. -/
def mapHas (reg : Registry) (name : Str) : Bool :=
  reg.any (fun p => p.1 == name)

/-- `connections.get(name)`. -/
def mapGet (reg : Registry) (name : Str) : Option ConnEntry :=
  (reg.find? (fun p => p.1 == name)).map Prod.snd

/-- `connections.set(name, e)`: overwrite in place, else append. -/
def mapSet : Registry → Str → ConnEntry → Registry
  | [], name, e => [(name, e)]
  | p :: ps, name, e => if p.1 == name then (name, e) :: ps else p :: mapSet ps name e

/-- `connections.delete(name)`: remove the entry with that key. -/
def mapDelete : Registry → Str → Registry
  | [], _ => []
  | p :: ps, name => if p.1 == name then ps else p :: mapDelete ps name

/-- `Array.from(connections.keys())`, in insertion order. -/
def mapKeys (reg : Registry) : List Str :=
  reg.map Prod.fst

/-- `keys.join(", ")`. -/
def joinComma : List Str → Str
  | [] => []
  | [k] => k
  | k :: ks => k ++ (", ".data ++ joinComma ks)

/-- `keys.join(", ") || "(none)"`: the JS `||` falls back when the join is
the empty string. -/
def availableText (keys : List Str) : Str :=
  if (joinComma keys).isEmpty then "(none)".data else joinComma keys

/-- The `getConnection` not-found message, listing available connections. -/
def notFoundMessage (name : Str) (keys : List Str) : Str :=
  "Connection '".data ++ name ++ ("' not found. Available connections: ".data ++ availableText keys)

/-- The `addConnection` duplicate-name message. -/
def duplicateMessage (name : Str) : Str :=
  "Connection '".data ++ name ++ "' already exists. Remove it first or use a different name.".data

/-- The `removeConnection` not-found message. -/
def removeNotFoundMessage (name : Str) : Str :=
  "Connection '".data ++ name ++ "' not found.".data

/-- Embeds `getConnection` (src/postgresql-reader-mcp/dist/index.js:7-14). -/
def getConnection (reg : Registry) (name : Str) : Except Str Pool :=
  match mapGet reg name with
  | some conn => Except.ok conn.pool
  | none => Except.error (notFoundMessage name (mapKeys reg))

/-- The entry built by `addConnection`: the pool constructed from the full
config (password and fixed resource limits included) plus the sanitized
display config (no password). -/
def newEntry (host : Str) (port : Int) (database user password : Str) : ConnEntry :=
  { pool := { config :=
      { host := host, port := port, database := database, user := user,
        password := password, maxClients := 5, idleTimeoutMillis := 30000,
        connectionTimeoutMillis := 5000 } },
    config := { host := host, port := port, database := database, user := user } }

/-- Embeds `addConnection` (src/postgresql-reader-mcp/dist/index.js:15-34):
duplicate names fail without mutation; otherwise the new entry is stored. -/
def addConnection (reg : Registry) (name host : Str) (port : Int)
    (database user password : Str) : Except Str Registry :=
  if mapHas reg name then
    Except.error (duplicateMessage name)
  else
    Except.ok (mapSet reg name (newEntry host port database user password))

/-- Embeds `removeConnection` (src/postgresql-reader-mcp/dist/index.js:35-42);
`pool.end()` is external teardown and is modelled as completing. -/
def removeConnection (reg : Registry) (name : Str) : Except Str Registry :=
  match mapGet reg name with
  | none => Except.error (removeNotFoundMessage name)
  | some _ => Except.ok (mapDelete reg name)

/-- The success payload of `handleAddConnection`: name plus the four
sanitized connection fields — no password field exists in this record. -/
structure AddResponse where
  success : Bool
  message : Str
  name : Str
  host : Str
  port : Int
  database : Str
  user : Str
deriving DecidableEq

/-- One element of the `handleListConnections` output: exactly name, host,
port, database, user — no password field exists in this record. -/
structure ConnInfo where
  name : Str
  host : Str
  port : Int
  database : Str
  user : Str
deriving DecidableEq

/-- Embeds `handleAddConnection` (src/postgresql-reader-mcp/dist/index.js:389-406):
register, then probe the new pool with `SELECT 1` (`probe`, an external
outcome); on any failure in the probe block the entry is deleted and the
error propagated. Returns the resulting registry and the response. -/
def handleAddConnection (reg : Registry) (name host : Str) (port : Int)
    (database user password : Str) (probe : Pool → Except Str Unit) :
    Registry × Except Str AddResponse :=
  match addConnection reg name host port database user password with
  | Except.error e => (reg, Except.error e)
  | Except.ok reg2 =>
    match getConnection reg2 name with
    | Except.error e => (mapDelete reg2 name, Except.error e)
    | Except.ok pool =>
      match probe pool with
      | Except.error e => (mapDelete reg2 name, Except.error e)
      | Except.ok _ =>
        (reg2, Except.ok
          { success := true,
            message := "Connection '".data ++ name ++ "' added successfully".data,
            name := name, host := host, port := port, database := database, user := user })

/-- Embeds `handleListConnections` (src/postgresql-reader-mcp/dist/index.js:414-423):
the serialized list is built from the entry name and its sanitized config only. -/
def handleListConnections (reg : Registry) : List ConnInfo :=
  reg.map (fun p =>
    { name := p.1, host := p.2.config.host, port := p.2.config.port,
      database := p.2.config.database, user := p.2.config.user })

theorem mapSet_absent (reg : Registry) (name : Str) (e : ConnEntry)
    (h : mapHas reg name = false) : mapSet reg name e = reg ++ [(name, e)] := by
  induction reg with
  | nil => rfl
  | cons p ps ih =>
    unfold mapHas at h
    simp only [List.any_cons, Bool.or_eq_false_iff] at h
    unfold mapSet
    rw [if_neg (by simp [h.1]), ih h.2]
    rfl

theorem mapDelete_append_absent (reg : Registry) (name : Str) (e : ConnEntry)
    (h : mapHas reg name = false) : mapDelete (reg ++ [(name, e)]) name = reg := by
  induction reg with
  | nil => simp [mapDelete]
  | cons p ps ih =>
    unfold mapHas at h
    simp only [List.any_cons, Bool.or_eq_false_iff] at h
    unfold mapDelete
    simp only [List.cons_append]
    rw [if_neg (by simp [h.1]), ih h.2]

theorem mapGet_append_self (reg : Registry) (name : Str) (e : ConnEntry)
    (h : mapHas reg name = false) : mapGet (reg ++ [(name, e)]) name = some e := by
  induction reg with
  | nil => simp [mapGet, List.find?]
  | cons p ps ih =>
    unfold mapHas at h
    simp only [List.any_cons, Bool.or_eq_false_iff] at h
    unfold mapGet
    simp only [List.cons_append, List.find?]
    rw [h.1]
    exact ih h.2

theorem handleAdd_duplicate (reg : Registry) (name host : Str) (port : Int)
    (database user password : Str) (probe : Pool → Except Str Unit)
    (hh : mapHas reg name = true) :
    handleAddConnection reg name host port database user password probe
      = (reg, Except.error (duplicateMessage name)) := by
  unfold handleAddConnection addConnection
  rw [if_pos hh]

theorem handleAdd_absent_probe_err (reg : Registry) (name host : Str) (port : Int)
    (database user password : Str) (probe : Pool → Except Str Unit) (e : Str)
    (hh : mapHas reg name = false)
    (hp : probe (newEntry host port database user password).pool = Except.error e) :
    handleAddConnection reg name host port database user password probe
      = (reg, Except.error e) := by
  unfold handleAddConnection addConnection getConnection
  rw [if_neg (by simp [hh]), mapSet_absent _ _ _ hh]
  simp only [mapGet_append_self _ _ _ hh, hp, mapDelete_append_absent _ _ _ hh]

theorem handleAdd_absent_probe_ok (reg : Registry) (name host : Str) (port : Int)
    (database user password : Str) (probe : Pool → Except Str Unit) (u : Unit)
    (hh : mapHas reg name = false)
    (hp : probe (newEntry host port database user password).pool = Except.ok u) :
    handleAddConnection reg name host port database user password probe
      = (reg ++ [(name, newEntry host port database user password)],
         Except.ok
           { success := true,
             message := "Connection '".data ++ name ++ "' added successfully".data,
             name := name, host := host, port := port, database := database, user := user }) := by
  unfold handleAddConnection addConnection getConnection
  rw [if_neg (by simp [hh]), mapSet_absent _ _ _ hh]
  simp only [mapGet_append_self _ _ _ hh, hp]

/-- C3: the add operation is atomic on failure — a duplicate name fails with
the duplicate-name error and leaves the registry (hence every pre-existing
entry display info) untouched, and any failure inside the probe block
leaves the registry equal to the registry before the call. -/
theorem c3_add_atomic_on_failure (reg : Registry) (name host : Str) (port : Int)
    (database user password : Str) (probe : Pool → Except Str Unit) :
    (mapHas reg name = true →
      handleAddConnection reg name host port database user password probe
        = (reg, Except.error (duplicateMessage name))) ∧
    (∀ e, (handleAddConnection reg name host port database user password probe).2
        = Except.error e →
      (handleAddConnection reg name host port database user password probe).1 = reg) := by
  refine ⟨fun hh => handleAdd_duplicate reg name host port database user password probe hh,
          fun e he => ?_⟩
  cases hh : mapHas reg name
  · cases hp : probe (newEntry host port database user password).pool with
    | error e2 =>
      rw [handleAdd_absent_probe_err reg name host port database user password probe e2 hh hp]
    | ok u =>
      rw [handleAdd_absent_probe_ok reg name host port database user password probe u hh hp] at he
      cases he
  · rw [handleAdd_duplicate reg name host port database user password probe hh]

theorem c3_add_atomic_on_failure_witness :
    (handleAddConnection [("a".data, newEntry "h".data 5432 "d".data "u".data "p".data)]
        "a".data "h".data 5432 "d".data "u".data "q".data (fun _ => Except.ok ())
      = ([("a".data, newEntry "h".data 5432 "d".data "u".data "p".data)],
         Except.error (duplicateMessage "a".data))) ∧
    (handleAddConnection [] "b".data "h".data 5432 "d".data "u".data "p".data
        (fun _ => Except.error "probe failed".data)).1 = [] :=
  ⟨(c3_add_atomic_on_failure [("a".data, newEntry "h".data 5432 "d".data "u".data "p".data)]
      "a".data "h".data 5432 "d".data "u".data "q".data (fun _ => Except.ok ())).1 (by decide),
   (c3_add_atomic_on_failure [] "b".data "h".data 5432 "d".data "u".data "p".data
      (fun _ => Except.error "probe failed".data)).2 "probe failed".data rfl⟩

theorem mapGet_none_iff (reg : Registry) (name : Str) :
    mapGet reg name = none ↔ mapHas reg name = false := by
  unfold mapGet mapHas
  constructor
  · intro h
    rcases Option.map_eq_none'.mp h with hf
    rw [List.any_eq_false]
    intro p hp hbeq
    have := List.find?_eq_none.mp hf p hp
    exact this hbeq
  · intro h
    apply Option.map_eq_none'.mpr
    apply List.find?_eq_none.mpr
    intro p hp
    exact fun hbeq => by
      have := List.any_eq_false.mp h p hp
      simp [hbeq] at this

theorem mapHas_delete (reg : Registry) (name : Str) (h : (mapKeys reg).Nodup) :
    mapHas (mapDelete reg name) name = false := by
  induction reg with
  | nil => rfl
  | cons p ps ih =>
    have hps : (mapKeys ps).Nodup := (List.nodup_cons.mp h).2
    have hnotin : p.1 ∉ mapKeys ps := (List.nodup_cons.mp h).1
    unfold mapDelete
    by_cases hp : p.1 == name
    · rw [if_pos hp]
      have hpn : p.1 = name := by simpa using hp
      subst hpn
      rw [mapHas, List.any_eq_false]
      intro q hq hbeq
      have hqn : q.1 = p.1 := by simpa using hbeq
      exact hnotin (hqn ▸ List.mem_map_of_mem Prod.fst hq)
    · rw [if_neg hp]
      unfold mapHas
      simp only [List.any_cons, Bool.or_eq_false_iff]
      exact ⟨by simpa using hp, ih hps⟩

theorem mem_joinComma (k : Str) (keys : List Str) (h : k ∈ keys) :
    List.IsInfix k (joinComma keys) := by
  induction keys with
  | nil => cases h
  | cons k0 ks ih =>
    cases ks with
    | nil =>
      have : k = k0 := by simpa using h
      subst this
      exact ⟨[], [], by simp [joinComma]⟩
    | cons k1 ks2 =>
      rcases List.mem_cons.mp h with hk | hk
      · subst hk
        exact ⟨[], ", ".data ++ joinComma (k1 :: ks2), by simp [joinComma]⟩
      · rcases ih hk with ⟨s, t, hst⟩
        refine ⟨k0 ++ ", ".data ++ s, t, ?_⟩
        simp only [joinComma]
        rw [← hst]
        simp

theorem mem_availableText (k : Str) (keys : List Str) (h : k ∈ keys) :
    List.IsInfix k (availableText keys) := by
  unfold availableText
  by_cases he : (joinComma keys).isEmpty
  · rw [if_pos he]
    have hjoin : joinComma keys = [] := by
      cases hj : joinComma keys
      · rfl
      · rw [hj] at he; simp [List.isEmpty] at he
    rcases mem_joinComma k keys h with ⟨s, t, hst⟩
    rw [hjoin] at hst
    have hk : k = [] := by
      cases k with
      | nil => rfl
      | cons c cs => exact absurd hst (by simp)
    rw [hk]
    exact ⟨[], "(none)".data, by simp⟩
  · rw [if_neg he]
    exact mem_joinComma k keys h

theorem infix_notFoundMessage (name k : Str) (keys : List Str)
    (h : List.IsInfix k (availableText keys)) :
    List.IsInfix k (notFoundMessage name keys) := by
  rcases h with ⟨s, t, hst⟩
  exact ⟨"Connection '".data ++ name ++ "' not found. Available connections: ".data ++ s, t, by
    rw [notFoundMessage, ← hst]
    simp⟩

/-- C4: removing a registered name makes the subsequent lookup fail with the
not-found error, and lookup of an absent name fails with the not-found error
whose message contains every currently registered name and the explicit
`(none)` marker when the registry is empty. -/
theorem c4_remove_then_get (reg : Registry) (name : Str) :
    ((mapKeys reg).Nodup → mapHas reg name = true →
      ∃ reg2, removeConnection reg name = Except.ok reg2 ∧
        getConnection reg2 name = Except.error (notFoundMessage name (mapKeys reg2))) ∧
    (mapHas reg name = false →
      getConnection reg name = Except.error (notFoundMessage name (mapKeys reg)) ∧
      (∀ k, k ∈ mapKeys reg → List.IsInfix k (notFoundMessage name (mapKeys reg))) ∧
      (mapKeys reg = [] →
        List.IsInfix "(none)".data (notFoundMessage name (mapKeys reg)))) := by
  constructor
  · intro hnd hh
    refine ⟨mapDelete reg name, ?_, ?_⟩
    · unfold removeConnection
      cases hg : mapGet reg name with
      | none => rw [mapGet_none_iff reg name] at hg; rw [hg] at hh; cases hh
      | some e => rfl
    · have hdel : mapHas (mapDelete reg name) name = false := mapHas_delete reg name hnd
      unfold getConnection
      rw [(mapGet_none_iff (mapDelete reg name) name).mpr hdel]
  · intro hh
    refine ⟨?_, ?_, ?_⟩
    · unfold getConnection
      rw [(mapGet_none_iff reg name).mpr hh]
    · intro k hk
      exact infix_notFoundMessage name k (mapKeys reg) (mem_availableText k (mapKeys reg) hk)
    · intro hempty
      apply infix_notFoundMessage
      rw [hempty]
      exact ⟨[], [], by simp [availableText, joinComma]⟩

theorem c4_remove_then_get_witness :
    (∃ reg2, removeConnection [("a".data, newEntry "h".data 5432 "d".data "u".data "p".data)]
        "a".data = Except.ok reg2 ∧
      getConnection reg2 "a".data = Except.error (notFoundMessage "a".data (mapKeys reg2))) ∧
    (getConnection [] "x".data = Except.error (notFoundMessage "x".data (mapKeys ([] : Registry))) ∧
     (∀ k, k ∈ mapKeys ([] : Registry) →
        List.IsInfix k (notFoundMessage "x".data (mapKeys ([] : Registry)))) ∧
     (mapKeys ([] : Registry) = [] →
        List.IsInfix "(none)".data (notFoundMessage "x".data (mapKeys ([] : Registry))))) :=
  ⟨(c4_remove_then_get [("a".data, newEntry "h".data 5432 "d".data "u".data "p".data)] "a".data).1
      (by decide) (by decide),
   (c4_remove_then_get [] "x".data).2 (by decide)⟩

theorem listConnections_config_only (reg : Registry) :
    handleListConnections reg = reg.map (fun p =>
      { name := p.1, host := p.2.config.host, port := p.2.config.port,
        database := p.2.config.database, user := p.2.config.user }) := rfl

/-- C5: the password never reaches the enumerable state or any output — two
add calls differing only in the password produce the same response and
registries whose enumerations coincide, and the enumeration is built from
exactly the name and the sanitized config fields (`ConnInfo` has fields
name, host, port, database, user only; no password field exists). -/
theorem c5_password_never_echoed (reg : Registry) (name host : Str) (port : Int)
    (database user p1 p2 : Str) (probeRes : Except Str Unit) :
    (handleAddConnection reg name host port database user p1 (fun _ => probeRes)).2
      = (handleAddConnection reg name host port database user p2 (fun _ => probeRes)).2 ∧
    handleListConnections
        (handleAddConnection reg name host port database user p1 (fun _ => probeRes)).1
      = handleListConnections
        (handleAddConnection reg name host port database user p2 (fun _ => probeRes)).1 ∧
    (∀ r : Registry, handleListConnections r = r.map (fun p =>
      { name := p.1, host := p.2.config.host, port := p.2.config.port,
        database := p.2.config.database, user := p.2.config.user })) := by
  refine ⟨?_, ?_, fun r => rfl⟩
  · cases hh : mapHas reg name
    · cases probeRes with
      | error e =>
        rw [handleAdd_absent_probe_err reg name host port database user p1
              (fun _ => Except.error e) e hh rfl,
            handleAdd_absent_probe_err reg name host port database user p2
              (fun _ => Except.error e) e hh rfl]
      | ok u =>
        rw [handleAdd_absent_probe_ok reg name host port database user p1
              (fun _ => Except.ok u) u hh rfl,
            handleAdd_absent_probe_ok reg name host port database user p2
              (fun _ => Except.ok u) u hh rfl]
    · rw [handleAdd_duplicate reg name host port database user p1 (fun _ => probeRes) hh,
          handleAdd_duplicate reg name host port database user p2 (fun _ => probeRes) hh]
  · cases hh : mapHas reg name
    · cases probeRes with
      | error e =>
        rw [handleAdd_absent_probe_err reg name host port database user p1
              (fun _ => Except.error e) e hh rfl,
            handleAdd_absent_probe_err reg name host port database user p2
              (fun _ => Except.error e) e hh rfl]
      | ok u =>
        rw [handleAdd_absent_probe_ok reg name host port database user p1
              (fun _ => Except.ok u) u hh rfl,
            handleAdd_absent_probe_ok reg name host port database user p2
              (fun _ => Except.ok u) u hh rfl]
        simp [handleListConnections, newEntry]
    · rw [handleAdd_duplicate reg name host port database user p1 (fun _ => probeRes) hh,
          handleAdd_duplicate reg name host port database user p2 (fun _ => probeRes) hh]

/-- Outcome of one `COUNT(*)` query against one connection (external). -/
inductive QueryResult where
  | ok (n : Int)
  | err (msg : Str)
deriving DecidableEq

/-- One element of the `comparisons` array of `handleCompareRowCounts`:
either a full record (with `target_count`/`difference` possibly null and
`countsMatch` the strict equality `sourceCount === targetCount`), or an error
record produced by the per-table catch block. -/
inductive Comparison where
  | item (table : Str) (source_count : Int) (target_count : Option Int)
      (difference : Option Int) (countsMatch : Bool)
  | errorItem (table : Str) (error : Str)
deriving DecidableEq

/-- The per-table body of the `handleCompareRowCounts` loop
(src/postgresql-reader-mcp/dist/index.js:633-654): a source failure is caught
and recorded as an error record; a target failure is swallowed by the
`.catch(() => null)` and recorded as a null target count. -/
def compareOne (srcCount tgtCount : Str → QueryResult) (table : Str) : Comparison :=
  match srcCount table with
  | QueryResult.err m => Comparison.errorItem table m
  | QueryResult.ok s =>
    match tgtCount table with
    | QueryResult.err _ => Comparison.item table s none none false
    | QueryResult.ok g => Comparison.item table s (some g) (some (g - s)) (s == g)

/-- Embeds the `comparisons` accumulation of `handleCompareRowCounts`: the
loop pushes exactly one record per table, in order. -/
def compareRowCounts (tables : List Str) (srcCount tgtCount : Str → QueryResult) :
    List Comparison :=
  tables.map (compareOne srcCount tgtCount)

/-- C7: per-item failure isolation in `compare_row_counts` — every table in
the list yields exactly one record, each record depends only on that table
and its own query outcomes, a source-side failure becomes an error record,
and a target-side failure becomes a null target count; no failure removes
the records of the other tables. -/
theorem c7_compare_row_counts_partial_failure (tables : List Str)
    (srcCount tgtCount : Str → QueryResult) :
    (compareRowCounts tables srcCount tgtCount).length = tables.length ∧
    (∀ i : Nat, (compareRowCounts tables srcCount tgtCount)[i]?
      = (tables[i]?).map (compareOne srcCount tgtCount)) ∧
    (∀ t m, srcCount t = QueryResult.err m →
      compareOne srcCount tgtCount t = Comparison.errorItem t m) ∧
    (∀ t s m, srcCount t = QueryResult.ok s → tgtCount t = QueryResult.err m →
      compareOne srcCount tgtCount t = Comparison.item t s none none false) := by
  refine ⟨List.length_map tables (compareOne srcCount tgtCount), fun i => ?_, ?_, ?_⟩
  · simp [compareRowCounts]
  · intro t m hm
    unfold compareOne
    rw [hm]
  · intro t s m hs hm
    unfold compareOne
    rw [hs, hm]

theorem c7_compare_row_counts_witness :
    compareRowCounts ["a".data, "b".data]
        (fun t => if t == "a".data then QueryResult.err "boom".data else QueryResult.ok 1)
        (fun _ => QueryResult.err "missing".data)
      = [Comparison.errorItem "a".data "boom".data,
         Comparison.item "b".data 1 none none false] := by
  have h := c7_compare_row_counts_partial_failure ["a".data, "b".data]
    (fun t => if t == "a".data then QueryResult.err "boom".data else QueryResult.ok 1)
    (fun _ => QueryResult.err "missing".data)
  have ha := h.2.2.1 "a".data "boom".data (by decide)
  have hb := h.2.2.2 "b".data 1 "missing".data (by decide) rfl
  show [compareOne _ _ "a".data, compareOne _ _ "b".data] = _
  rw [ha, hb]

/-- `path.basename` (POSIX): the part after the last separator. -/
def basenameOf (p : Str) : Str :=
  ((p.reverse).takeWhile (fun c => c != '/')).reverse

/-- `path.extname` (POSIX): from the last dot of the basename to its end;
empty when there is no dot or when the only dot leads the basename
(dotfiles have no extension). -/
def extname (p : Str) : Str :=
  let b := basenameOf p
  let tail := (b.reverse).takeWhile (fun c => c != '.')
  if tail.length == b.length then
    []
  else if tail.length + 1 == b.length then
    []
  else
    '.' :: tail.reverse

/-- The `supportedExtensions` array of `validateFilePath` (src/unnamed/part_001). -/
def supportedExtensions : List Str :=
  [".xlsx".data, ".xls".data, ".csv".data, ".ods".data]

/-- The file-not-found message of `validateFilePath`. -/
def fileNotFoundMessage (resolvedPath : Str) : Str :=
  "File not found: ".data ++ resolvedPath

/-- The unsupported-format message of `validateFilePath`. -/
def unsupportedFormatMessage (ext : Str) : Str :=
  "Unsupported file format: ".data ++ ext ++
    (". Supported formats: ".data ++ joinComma supportedExtensions)

/-- Embeds `validateFilePath` (src/unnamed/part_001:20-33). `path.resolve`
and `fs.existsSync` are external collaborators, passed as `resolve` and
`fsExists`; the extension is lower-cased before membership in the
supported-extension list is tested, and only a path passing both checks is
returned (and handed to the spreadsheet parser). -/
def validateFilePath (resolve : Str → Str) (fsExists : Str → Bool) (filePath : Str) :
    Except Str Str :=
  let resolvedPath := resolve filePath
  if !(fsExists resolvedPath) then
    Except.error (fileNotFoundMessage resolvedPath)
  else
    let ext := toLowerList (extname resolvedPath)
    if supportedExtensions.contains ext then
      Except.ok resolvedPath
    else
      Except.error (unsupportedFormatMessage ext)

/-- C8: spreadsheet path validation fails with the file-not-found error when
the resolved path does not exist, fails with the unsupported-format error
when it exists but its lower-cased extension is outside
{.xlsx, .xls, .csv, .ods}, and succeeds (handing the resolved path to the
parser) exactly when both checks pass. -/
theorem c8_validate_file_path (resolve : Str → Str) (fsExists : Str → Bool) (p : Str) :
    (fsExists (resolve p) = false →
      validateFilePath resolve fsExists p
        = Except.error (fileNotFoundMessage (resolve p))) ∧
    (fsExists (resolve p) = true →
      supportedExtensions.contains (toLowerList (extname (resolve p))) = false →
      validateFilePath resolve fsExists p
        = Except.error (unsupportedFormatMessage (toLowerList (extname (resolve p))))) ∧
    (validateFilePath resolve fsExists p = Except.ok (resolve p) ↔
      (fsExists (resolve p) = true ∧
       supportedExtensions.contains (toLowerList (extname (resolve p))) = true)) := by
  refine ⟨fun hex => ?_, fun hex hsup => ?_, ?_⟩
  · unfold validateFilePath
    rw [if_pos (by simp [hex])]
  · unfold validateFilePath
    rw [if_neg (by simp [hex]), if_neg (by intro hc; rw [hsup] at hc; cases hc)]
  · constructor
    · intro hok
      unfold validateFilePath at hok
      by_cases hex : fsExists (resolve p) = true
      · refine ⟨hex, ?_⟩
        by_cases hsup : supportedExtensions.contains (toLowerList (extname (resolve p))) = true
        · exact hsup
        · rw [if_neg (by simp [hex]), if_neg (by simp at hsup ⊢; exact hsup)] at hok
          cases hok
      · rw [if_pos (by simp at hex; simp [hex])] at hok
        cases hok
    · rintro ⟨hex, hsup⟩
      unfold validateFilePath
      rw [if_neg (by simp [hex]), if_pos hsup]

theorem c8_validate_file_path_witness :
    (validateFilePath (fun q => q) (fun _ => false) "/tmp/a.xlsx".data
      = Except.error (fileNotFoundMessage "/tmp/a.xlsx".data)) ∧
    (validateFilePath (fun q => q) (fun _ => true) "/tmp/a.txt".data
      = Except.error (unsupportedFormatMessage (toLowerList (extname "/tmp/a.txt".data)))) ∧
    (validateFilePath (fun q => q) (fun _ => true) "/tmp/a.XLSX".data
      = Except.ok "/tmp/a.XLSX".data) :=
  ⟨(c8_validate_file_path (fun q => q) (fun _ => false) "/tmp/a.xlsx".data).1 rfl,
   (c8_validate_file_path (fun q => q) (fun _ => true) "/tmp/a.txt".data).2.1 rfl (by decide),
   (c8_validate_file_path (fun q => q) (fun _ => true) "/tmp/a.XLSX".data).2.2.mpr
     ⟨rfl, by decide⟩⟩
